import Mathlib

/-!
Verification of the ioc-test audio streamer (`src/main.cpp`) against its
natural-language specification.

The development shallowly embeds the parts of `main.cpp` that the claims
are about, under the compiled configuration of the source
(`USE_TCP`, `USE_UNICAM` with `UNICAM_CODED_SAMPLE_SIZE_BITS = 8`,
`SERVER_NAME` defined, `LOCAL_FILE` and `STREAM_FIXED_TONE` and
`GAIN_LEFT_SHIFT` undefined):

* `processAudio`  — per-sample adaptive gain controller (main.cpp:500);
* `getMonoSample` — mono extraction from a stereo frame (main.cpp:607);
* `codeUnicam`    — UNICAM-8 block compression (main.cpp:661);
* the URTP header filling of `fillMonoDatagramFromBlock` (main.cpp:848);
* the datagram-pool producer/consumer ring (main.cpp:848, main.cpp:1128);
* `tcpSend`       — the looping TCP send (main.cpp:1099);
* one drain iteration of `sendData` (main.cpp:1142).

C `int` values are modelled as `ℤ`; C `unsigned int`/`char` values as `ℕ`
with explicit `% 2^32` / `% 2^8` where a narrowing store occurs.
C's arithmetic right shift of a (two's complement) signed int equals
floor division by the corresponding power of two, which `main.cpp`
itself insists on (`testArithmeticRightShift`, main.cpp:1270), so it is
modelled by `Int.fdiv`.
-/

namespace Ioc

/-- Compile-time constants of `main.cpp` (macro definitions, lines 62-274). -/
def SAMPLING_FREQUENCY : ℕ := 16000

/-- `BLOCK_DURATION_MS` (main.cpp:113). -/
def BLOCK_DURATION_MS : ℕ := 20

/-- `SAMPLES_PER_BLOCK = SAMPLING_FREQUENCY * BLOCK_DURATION_MS / 1000` (main.cpp:120). -/
def SAMPLES_PER_BLOCK : ℕ := SAMPLING_FREQUENCY * BLOCK_DURATION_MS / 1000

/-- `AUDIO_DESIRED_UNUSED_BITS` (main.cpp:129). -/
def AUDIO_DESIRED_UNUSED_BITS : ℤ := 4

/-- `AUDIO_MAX_SHIFT_BITS` (main.cpp:132). -/
def AUDIO_MAX_SHIFT_BITS : ℤ := 12

/-- `SAMPLES_PER_UNICAM_BLOCK = SAMPLING_FREQUENCY / 1000` (main.cpp:256). -/
def SAMPLES_PER_UNICAM_BLOCK : ℕ := SAMPLING_FREQUENCY / 1000

/-- `UNICAM_CODED_SAMPLE_SIZE_BITS` — the compiled value is 8 (main.cpp:257). -/
def UNICAM_CODED_SAMPLE_SIZE_BITS : ℤ := 8

/-- `UNICAM_BLOCKS_PER_BLOCK` (main.cpp:258). -/
def UNICAM_BLOCKS_PER_BLOCK : ℕ := SAMPLES_PER_BLOCK / SAMPLES_PER_UNICAM_BLOCK

/-- `TWO_UNICAM_BLOCKS_SIZE` (main.cpp:259). -/
def TWO_UNICAM_BLOCKS_SIZE : ℕ :=
  SAMPLES_PER_UNICAM_BLOCK * 8 / 8 * 2 + 1

/-- `URTP_HEADER_SIZE` (main.cpp:264). -/
def URTP_HEADER_SIZE : ℕ := 14

/-- `URTP_BODY_SIZE` under `USE_UNICAM` (main.cpp:267). -/
def URTP_BODY_SIZE : ℕ := UNICAM_BLOCKS_PER_BLOCK / 2 * TWO_UNICAM_BLOCKS_SIZE

/-- `URTP_DATAGRAM_SIZE` (main.cpp:271). -/
def URTP_DATAGRAM_SIZE : ℕ := URTP_HEADER_SIZE + URTP_BODY_SIZE

/-- `MAX_NUM_DATAGRAMS` (main.cpp:274). -/
def MAX_NUM_DATAGRAMS : ℕ := 200

/-- `TCP_SEND_TIMEOUT_MS` (main.cpp:62). -/
def TCP_SEND_TIMEOUT_MS : ℤ := 1500

/-- `MAX_DURATION_SOCKET_ERRORS_MS` (main.cpp:72). -/
def MAX_DURATION_SOCKET_ERRORS_MS : ℤ := 1000

/-- `SYNC_BYTE` (main.cpp:262). -/
def SYNC_BYTE : ℕ := 0x5a

/-- Pointwise update of a memory modelled as a function, used for byte
buffers and the container ring. -/
def updFn {α : Type} (f : ℕ → α) (i : ℕ) (v : α) : ℕ → α :=
  fun j => if j = i then v else f j

/-- C's arithmetic right shift of a signed two's-complement `int` by
`n` places: floor division by `2 ^ n` (see `testArithmeticRightShift`,
main.cpp:1270, which the program requires to pass). -/
def asr (v : ℤ) (n : ℕ) : ℤ := Int.fdiv v (2 ^ n)

/-- The descending bit-test loop shared by `processAudio` (main.cpp:512)
and `codeUnicam` (main.cpp:704): starting at bit `x` and walking down to
bit 0, count the zero bits of `a` until the first set bit is met.
`a` is the absolute value of a sample, hence a natural number. -/
def unusedFrom (a : ℕ) : ℕ → ℕ
  | 0 => if a.testBit 0 then 0 else 1
  | x + 1 => if a.testBit (x + 1) then 0 else 1 + unusedFrom a x

/-- `int` absolute value as computed by the source
(`if (absSample < 0) absSample = -absSample`, main.cpp:509 and 686). -/
def cAbs (v : ℤ) : ℤ := if v < 0 then -v else v

/-- The number of unused bits of a sample, per `processAudio`
(main.cpp:512-518): bits 30..0 of the absolute value are examined. -/
def unusedBitsOf (v : ℤ) : ℤ := (unusedFrom (cAbs v).toNat 30 : ℤ)

/-- The audio gain state of `main.cpp`: `gAudioShiftSampleCount`,
`gAudioUnusedBitsMin` and `gAudioShift` (main.cpp:320-322). -/
structure AudioState where
  sampleCount : ℤ
  unusedBitsMin : ℤ
  shift : ℤ
deriving Repr, DecidableEq

/-- The initial values of the audio gain state (main.cpp:320-322). -/
def initAudioState : AudioState :=
  { sampleCount := 0, unusedBitsMin := 0x7FFFFFFF, shift := 0 }

/-- `processAudio` (main.cpp:500-557): returns the updated gain state and
the shifted sample.  The left shift `monoSample <<= gAudioShift` is
modelled as multiplication by `2 ^ shift` over `ℤ` (the 32-bit
truncation of the shifted sample does not matter to any claim, which
are about the gain state and byte counts). -/
def processAudio (s : AudioState) (monoSample : ℤ) : AudioState × ℤ :=
  let unusedBits := unusedBitsOf monoSample
  let out := monoSample * 2 ^ s.shift.toNat
  let m := if unusedBits < s.unusedBitsMin then unusedBits else s.unusedBitsMin
  let count := s.sampleCount + 1
  if count ≥ (SAMPLING_FREQUENCY / (1000 / BLOCK_DURATION_MS) : ℕ) then
    -- block boundary (main.cpp:535-552)
    let shift1 := if s.shift > m then m else s.shift
    let shift2 :=
      if m - shift1 > AUDIO_DESIRED_UNUSED_BITS ∧ shift1 < AUDIO_MAX_SHIFT_BITS then
        shift1 + 1
      else if m - shift1 < AUDIO_DESIRED_UNUSED_BITS ∧ shift1 > 0 then
        shift1 - 1
      else shift1
    ({ sampleCount := 0, unusedBitsMin := m + 1, shift := shift2 }, out)
  else
    ({ sampleCount := count, unusedBitsMin := m, shift := s.shift }, out)

/-- Running `processAudio` over a list of mono samples. -/
def runAudio (s : AudioState) (xs : List ℤ) : AudioState :=
  xs.foldl (fun st x => (processAudio st x).1) s

/-- The block-boundary gain update as the specification words it
(spec §4.2 step 4): clamp, then conditionally step the shift by one,
with the relaxation `gAudioUnusedBitsMin += 1` afterwards.  `m` is the
minimum-unused-bits value at the boundary, `shift` the current shift. -/
def specGainBoundaryShift (shift m : ℤ) : ℤ :=
  let c := min shift m
  if m - c > 4 ∧ c < 12 then c + 1
  else if m - c < 4 ∧ c > 0 then c - 1
  else c

/-- Reinterpret a 32-bit unsigned value as a signed `int`
(the final `(int) retValue` cast of `getMonoSample`, main.cpp:642). -/
def toInt32 (n : ℕ) : ℤ :=
  if n % 2 ^ 32 < 2 ^ 31 then (n % 2 ^ 32 : ℤ) else (n % 2 ^ 32 : ℤ) - 2 ^ 32

/-- `getMonoSample` (main.cpp:607-643), compiled without
`STREAM_FIXED_TONE`.  The stereo frame is the 8 bytes starting at
`pStereoSample`; `b i` is `*(pByte + i)`, each a byte (`< 256`).
Returns the mono sample together with the increment applied to the
`gPossibleBadAudio` counter (main.cpp:629-632). -/
def getMonoSample (b : ℕ → ℕ) (possibleBadAudio : ℕ) : ℤ × ℕ :=
  -- LSB, middle byte, MSB (main.cpp:614-620)
  let retValue := b 3 + (b 0) * 2 ^ 8 + (b 1) * 2 ^ 16
  -- sign extension (main.cpp:622-624)
  let retValue := if retValue &&& 0x800000 ≠ 0 then retValue ||| 0xFF000000 else retValue
  (toInt32 retValue, if b 2 ≠ 0xFF then possibleBadAudio + 1 else possibleBadAudio)

/-- The value `getMonoSample` is specified to produce (spec §4.2):
assemble `(byte[1] << 16) | (byte[0] << 8) | byte[3]` and sign-extend
bit 23 through bits 31..24. -/
def specMonoValue (b : ℕ → ℕ) : ℤ :=
  let v : ℕ := (b 1) * 2 ^ 16 + (b 0) * 2 ^ 8 + b 3
  if v < 2 ^ 23 then (v : ℤ) else (v : ℤ) - 2 ^ 24

/-!  ## The UNICAM-8 codec (`codeUnicam`, main.cpp:661-798)

The source iterates over the stereo frames of one audio block, obtaining
each mono sample with `getMonoSample` and processing it with
`processAudio`; the codec state proper starts at the obtained mono
sample.  The embedding therefore takes the list of raw mono samples
(the `getMonoSample` results, one per stereo frame) as input and applies
`processAudio` itself, exactly as the source loop does.

`shiftValueCoded` is declared without an initialiser (main.cpp:671) and
is assigned only when `shiftValue32Bit >= 16` (main.cpp:726-728); its
indeterminate initial value is the `coded` field of the starting state.
Likewise `isEvenBlock` (main.cpp:672) is only assigned inside the
sub-block completion branch; its indeterminate initial value is the
`isEven` field of the starting state. -/

/-- The inner per-sub-block write loop of the 8-bit path
(main.cpp:742-778, `UNICAM_CODED_SAMPLE_SIZE_BITS == 8` arm):
`*pDest = gUnicamBuffer[x] >> shiftValue32Bit; pDest++;` for each of the
16 buffered samples.  The store to `char` truncates to a byte. -/
def writeSamples (buf : List ℤ) (shift32 : ℕ) (out : ℕ → ℕ) (pos : ℕ) :
    (ℕ → ℕ) × ℕ :=
  buf.foldl (fun (op : (ℕ → ℕ) × ℕ) v =>
    (updFn op.1 op.2 ((asr v shift32).emod (2 ^ 8)).toNat, op.2 + 1)) (out, pos)

/-- The state of `codeUnicam` while scanning one audio block. -/
structure UnicamState where
  audio : AudioState
  /-- `gUnicamBuffer` contents so far; `i` is its length (main.cpp:692). -/
  buf : List ℤ
  /-- `maxSample` (main.cpp:665). -/
  maxSample : ℤ
  /-- `numBlocks` (main.cpp:667). -/
  numBlocks : ℕ
  /-- `shiftValueCoded` (main.cpp:671), kept as the byte value stored;
  only ever assigned values in `[0, 15]` by the source. -/
  coded : ℕ
  /-- `isEvenBlock` (main.cpp:672). -/
  isEven : Bool
  /-- `pDest - pDestOriginal` (main.cpp:677). -/
  pos : ℕ
  /-- The destination buffer `pDest[..]` as a byte memory. -/
  out : ℕ → ℕ

/-- One iteration of the outer loop of `codeUnicam` (main.cpp:679-787)
for one stereo frame whose mono sample is `mono0`. -/
def codeUnicamSample (st : UnicamState) (mono0 : ℤ) : UnicamState :=
  let p := processAudio st.audio mono0
  let monoSample := p.2
  let absSample := cAbs monoSample
  let maxSample := if absSample > st.maxSample then absSample else st.maxSample
  let buf := st.buf ++ [monoSample]
  if buf.length ≥ SAMPLES_PER_UNICAM_BLOCK then
    -- a sub-block is full (main.cpp:694-786)
    let usedBits : ℤ := 32 - (unusedFrom maxSample.toNat 30 : ℤ)
    let shift32 : ℤ :=
      if usedBits ≥ UNICAM_CODED_SAMPLE_SIZE_BITS then
        usedBits - UNICAM_CODED_SAMPLE_SIZE_BITS
      else 0
    -- main.cpp:726-728: `shiftValueCoded` is assigned only in this case
    let coded := if shift32 ≥ 16 then (shift32 - 16).toNat else st.coded
    let isEven := st.numBlocks % 2 = 0
    -- odd sub-block: lower nibble of the preceding byte (main.cpp:735-739)
    let out0 := if ¬ isEven then
        updFn st.out st.pos ((st.out st.pos &&& 0xF0 ||| coded) % 2 ^ 8)
      else st.out
    let pos0 := if ¬ isEven then st.pos + 1 else st.pos
    let wr := writeSamples buf (shift32.toNat) out0 pos0
    -- even sub-block: upper nibble of the following byte (main.cpp:781-783)
    let out1 := if isEven then
        updFn wr.1 wr.2 ((wr.1 wr.2 &&& 0x0F ||| coded <<< 4) % 2 ^ 8)
      else wr.1
    { audio := p.1, buf := [], maxSample := 0, numBlocks := st.numBlocks + 1,
      coded := coded, isEven := isEven, pos := wr.2, out := out1 }
  else
    { st with audio := p.1, buf := buf, maxSample := maxSample }

/-- `codeUnicam` (main.cpp:661-798) over the mono samples of one audio
block, from codec state `st`.  Returns the final state together with the
returned `numBytes` (main.cpp:789-797). -/
def codeUnicam (st : UnicamState) (monoSamples : List ℤ) : UnicamState × ℤ :=
  let fin := monoSamples.foldl codeUnicamSample st
  (fin, (fin.pos : ℤ) + if fin.isEven then 1 else 0)

/-- The codec state at the start of any `codeUnicam` call (the locals
of main.cpp:663-677 are fresh per call): audio gain state `a` carried
over, an empty sub-block buffer, `numBlocks = 0`, `pDest` at the body
start, indeterminate `shiftValueCoded` / `isEvenBlock` (`c0`, `e0`),
the destination buffer holding arbitrary prior bytes `o0`. -/
def freshUnicamState (a : AudioState) (c0 : ℕ) (e0 : Bool) (o0 : ℕ → ℕ) :
    UnicamState :=
  { audio := a, buf := [], maxSample := 0, numBlocks := 0,
    coded := c0, isEven := e0, pos := 0, out := o0 }

/-- The codec state at the start of the very first audio block. -/
def initUnicamState (c0 : ℕ) (e0 : Bool) (o0 : ℕ → ℕ) : UnicamState :=
  freshUnicamState initAudioState c0 e0 o0

/-- The shift nibble the specification says goes on the wire for a
sub-block with peak magnitude `maxAbs` (spec §4.3 step 1 and claim C1):
`shift32 = max(0, usedBits - 8)`, nibble `= max(0, shift32 - 16)`. -/
def specCodedShift (maxAbs : ℤ) : ℤ :=
  let usedBits : ℤ := 32 - (unusedFrom maxAbs.toNat 30 : ℤ)
  max 0 (max 0 (usedBits - 8) - 16)

/-!  ## Datagram framing (`fillMonoDatagramFromBlock`, main.cpp:848-933) -/

/-- The 14 header bytes written by `fillMonoDatagramFromBlock`
(main.cpp:885-921), in offset order.  `seq` is `gSequenceNumber`
(a C `int`), `ts` the 64-bit timestamp, `numBytesAudio` the codec
return value; every store is a `char` store, truncating to a byte.
Shifts of the signed `seq` and `numBytesAudio` are arithmetic. -/
def urtpHeader (coding : ℕ) (seq : ℤ) (ts : ℕ) (numBytesAudio : ℤ) : List ℕ :=
  [SYNC_BYTE,
   coding,
   ((asr seq 8).emod (2 ^ 8)).toNat,
   (seq.emod (2 ^ 8)).toNat,
   ts >>> 56 % 2 ^ 8,
   ts >>> 48 % 2 ^ 8,
   ts >>> 40 % 2 ^ 8,
   ts >>> 32 % 2 ^ 8,
   ts >>> 24 % 2 ^ 8,
   ts >>> 16 % 2 ^ 8,
   ts >>> 8 % 2 ^ 8,
   ts % 2 ^ 8,
   ((asr numBytesAudio 8).emod (2 ^ 8)).toNat,
   (numBytesAudio.emod (2 ^ 8)).toNat]

/-- The kinds of store that `fillMonoDatagramFromBlock` performs on the
pool slot it fills. -/
inductive FillEv where
  /-- `gpContainerNextEmpty->inUse = true` (main.cpp:868). -/
  | storeInUse : FillEv
  /-- the body written by `codeUnicam(pRawAudio, pDatagram + URTP_HEADER_SIZE)`
  (main.cpp:880). -/
  | writeBody : FillEv
  /-- the store of header byte `off` (main.cpp:885-921). -/
  | writeHeader (off : ℕ) : FillEv
deriving DecidableEq, Repr

/-- The slot stores of one call of `fillMonoDatagramFromBlock`, in
program order (main.cpp:848-933).  The overflow bookkeeping before the
flag store (main.cpp:855-867) writes no slot bytes, and the sequence of
slot stores is the same whether or not the slot was already in use. -/
def fillSlotStores : List FillEv :=
  FillEv.storeInUse :: FillEv.writeBody ::
    (List.range URTP_HEADER_SIZE).map FillEv.writeHeader

/-- `tr` orders every body/header write before every `inUse := true`
store — the property claim C2 asserts of `fillMonoDatagramFromBlock`. -/
def writesBeforeFlag (tr : List FillEv) : Prop :=
  ∀ i j : Fin tr.length, tr.get i ≠ FillEv.storeInUse →
    tr.get j = FillEv.storeInUse → (i : ℕ) < (j : ℕ)

/-- `tr` orders every `inUse := true` store before every body/header
write — what `fillMonoDatagramFromBlock` actually does. -/
def flagBeforeWrites (tr : List FillEv) : Prop :=
  ∀ i j : Fin tr.length, tr.get i = FillEv.storeInUse →
    tr.get j ≠ FillEv.storeInUse → (i : ℕ) < (j : ℕ)

/-- The overflow-streak state of the allocator: `gNumDatagramOverflows`
(main.cpp:356) and the log events it emits. -/
inductive OverflowEv where
  /-- `LOG(EVENT_DATAGRAM_OVERFLOW_BEGINS, ...)` (main.cpp:857). -/
  | begins : OverflowEv
  /-- `LOG(EVENT_DATAGRAM_NUM_OVERFLOWS, n)` (main.cpp:863). -/
  | ended (n : ℕ) : OverflowEv
deriving DecidableEq, Repr

/-- Allocator streak state: the streak counter and the trail of emitted
overflow events. -/
structure AllocState where
  streak : ℕ
  events : List OverflowEv
deriving DecidableEq, Repr

/-- The overflow bookkeeping of one allocation in
`fillMonoDatagramFromBlock` (main.cpp:855-868), given whether the slot
at `gpContainerNextEmpty` was already `inUse`.  Returns the new state
and whether the slot is used by this allocation (it always is: the call
falls through to `inUse = true` and fills the slot regardless). -/
def allocStep (st : AllocState) (slotInUse : Bool) : AllocState × Bool :=
  if slotInUse then
    ({ streak := st.streak + 1,
       events := st.events ++ if st.streak = 0 then [OverflowEv.begins] else [] },
     true)
  else
    ({ streak := 0,
       events := st.events ++
         if st.streak > 0 then [OverflowEv.ended st.streak] else [] },
     true)

/-- A run of allocations, given the sequence of `inUse` states found. -/
def runAlloc (st : AllocState) (bs : List Bool) : AllocState :=
  bs.foldl (fun s b => (allocStep s b).1) st

/-!  ## The datagram pool ring (claims C3)

`gContainer` is a circular list of `MAX_NUM_DATAGRAMS = 200` slots
(main.cpp:339, 467-487).  The producer `fillMonoDatagramFromBlock`
writes the slot at `gpContainerNextEmpty` (overwriting it even when
still in use), stamps it with the current `gSequenceNumber`, increments
the sequence number and advances (main.cpp:855-927).  The consumer
`sendData` transmits the slot at `gpContainerNextTx` while it is in
use, then clears the flag and advances (main.cpp:1142-1251).  Cursors
are modelled as free-running counters; the slot they reference is their
value `% 200`. -/

/-- Pool state: slot flags/stamps, producer and consumer cursors (as
total step counts), the sequence counter, the sequence numbers carried
by transmitted datagrams in transmit order, and whether any allocation
has overwritten an in-use slot. -/
structure Pool where
  slots : ℕ → Bool × ℕ
  nextEmpty : ℕ
  nextTx : ℕ
  seq : ℕ
  sent : List ℕ
  overflowed : Bool

/-- The pool as set up by `initContainers` (main.cpp:467-487): all slots
free, both cursors at the head, sequence number 0. -/
def initPool : Pool :=
  { slots := fun _ => (false, 0), nextEmpty := 0, nextTx := 0, seq := 0,
    sent := [], overflowed := false }

/-- One producer step: `fillMonoDatagramFromBlock` on the slot at
`nextEmpty` (main.cpp:855-927).  The slot is stamped and marked in use
whether or not it was free; `overflowed` records an overwrite. -/
def poolProduce (p : Pool) : Pool :=
  let i := p.nextEmpty % MAX_NUM_DATAGRAMS
  { slots := updFn p.slots i (true, p.seq),
    nextEmpty := p.nextEmpty + 1,
    nextTx := p.nextTx,
    seq := p.seq + 1,
    sent := p.sent,
    overflowed := p.overflowed || (p.slots i).1 }

/-- One consumer step: the body of `while (gpContainerNextTx->inUse)`
in `sendData` (main.cpp:1142-1250) with a successful send: the sequence
number carried by the slot's datagram goes out on the wire, then the
slot is freed and the cursor advances. -/
def poolConsume (p : Pool) : Pool :=
  let i := p.nextTx % MAX_NUM_DATAGRAMS
  if (p.slots i).1 then
    { p with slots := updFn p.slots i (false, (p.slots i).2),
             nextTx := p.nextTx + 1,
             sent := p.sent ++ [(p.slots i).2] }
  else p

/-- An interleaving of producer and consumer steps. -/
inductive PoolStep where
  | produce : PoolStep
  | consume : PoolStep
deriving DecidableEq, Repr

/-- Run a schedule of pool steps. -/
def runPool (p : Pool) (sched : List PoolStep) : Pool :=
  sched.foldl (fun q s => match s with
    | PoolStep.produce => poolProduce q
    | PoolStep.consume => poolConsume q) p

/-- The 16-bit value a sequence number occupies on the wire
(header bytes 2-3, main.cpp:897-899). -/
def wire16 (n : ℕ) : ℕ := n % 2 ^ 16

/-- Forward distance from wire value of `a` to wire value of `b` in
16-bit serial-number arithmetic. -/
def fDist (a b : ℕ) : ℕ := (wire16 b + 2 ^ 16 - wire16 a) % 2 ^ 16

/-- The carried 16-bit sequence numbers are strictly monotonically
increasing modulo `2^16`: each step moves forward by at least 1 and at
most `2^15` (serial-number arithmetic; a backward step would have
forward distance above `2^15`). -/
def wireMonoB : List ℕ → Bool
  | [] => true
  | [_] => true
  | a :: b :: t => (decide (1 ≤ fDist a b) && decide (fDist a b ≤ 2 ^ 15))
      && wireMonoB (b :: t)

/-!  ## The sender (`tcpSend` main.cpp:1099-1123, `sendData` main.cpp:1128-1253) -/

/-- mbed `nsapi_error` codes distinguished by `sendData`
(main.cpp:1189-1191); values from mbed OS `nsapi_types.h`, an external
collaborator of this repository. -/
def NSAPI_ERROR_WOULD_BLOCK : ℤ := -3001

/-- mbed `NSAPI_ERROR_NO_CONNECTION`. -/
def NSAPI_ERROR_NO_CONNECTION : ℤ := -3004

/-- mbed `NSAPI_ERROR_NO_SOCKET`. -/
def NSAPI_ERROR_NO_SOCKET : ℤ := -3005

/-- mbed `NSAPI_ERROR_CONNECTION_LOST`. -/
def NSAPI_ERROR_CONNECTION_LOST : ℤ := -3016

/-- The `while ((count < size) && (timer.read_ms() < TCP_SEND_TIMEOUT_MS))`
loop of `tcpSend` (main.cpp:1106-1111), driven by an oracle giving, for
each iteration, the timer reading at the loop test and the result of
`pSock->send(pData + count, size - count)`.  Returns `(count, x)` at
loop exit.  The oracle must script the loop to exit before it runs out
(its last entry carries a timer reading past the deadline or completes
the datagram), matching a finite real execution. -/
def tcpSendLoop (size : ℤ) : ℤ → ℤ → List (ℤ × ℤ) → ℤ × ℤ
  | count, x, [] => (count, x)
  | count, x, (t, r) :: rest =>
    if count < size ∧ t < TCP_SEND_TIMEOUT_MS then
      tcpSendLoop size (if r > 0 then count + r else count) r rest
    else (count, x)

/-- `tcpSend` (main.cpp:1099-1123): loop, then
`if (x < 0) count = x; return count;`. -/
def tcpSend (size : ℤ) (oracle : List (ℤ × ℤ)) : ℤ :=
  let cx := tcpSendLoop size 0 0 oracle
  if cx.2 < 0 then cx.2 else cx.1

/-- The byte ranges of the datagram accepted by the socket during one
`tcpSend` call: each iteration whose `send` returns `r > 0` hands bytes
`[count, count + r)` of `pData` to the TCP stream. -/
def tcpSendChunks (size : ℤ) : ℤ → List (ℤ × ℤ) → List (ℤ × ℤ)
  | _, [] => []
  | count, (t, r) :: rest =>
    if count < size ∧ t < TCP_SEND_TIMEOUT_MS then
      if r > 0 then (count, r) :: tcpSendChunks size (count + r) rest
      else tcpSendChunks size count rest
    else []

/-- The datagram byte offsets put on the TCP stream by a list of
accepted chunks, in stream order. -/
def streamOffsets (chunks : List (ℤ × ℤ)) : List ℤ :=
  chunks.flatMap fun c => (List.range c.2.toNat).map fun k => c.1 + k

/-- The sender-side state touched by one drain iteration of `sendData`. -/
structure SenderState where
  /-- the `inUse` flag of the slot at `gpContainerNextTx`. -/
  slotInUse : Bool
  /-- consumer cursor (as a step count). -/
  nextTx : ℕ
  /-- `gNetworkConnected` (main.cpp:363). -/
  networkConnected : Bool
  /-- `gNumSendFailures` (main.cpp:400). -/
  numSendFailures : ℕ
  /-- `gBytesSent` (main.cpp:403). -/
  bytesSent : ℕ
deriving DecidableEq, Repr

/-- One iteration of the inner drain loop of `sendData`
(main.cpp:1142-1250) under the compiled configuration (`USE_TCP`, no
`LOCAL_FILE`), for a slot that is being drained, with both `pSock` and
`pServer` non-null (the compiled `main` only starts `sendData` after
both exist, main.cpp:1333-1364).  `retValue` is the `tcpSend` result and
`badMs` the value `badSendDurationTimer.read_ms()` would deliver at the
check on main.cpp:1182. -/
def sendDataIter (st : SenderState) (retValue badMs : ℤ) : SenderState :=
  -- main.cpp:1165-1176
  let okToDelete := retValue = (URTP_DATAGRAM_SIZE : ℤ)
  let numSendFailures :=
    if retValue ≠ (URTP_DATAGRAM_SIZE : ℤ) then st.numSendFailures + 1
    else st.numSendFailures
  let bytesSent :=
    if retValue = (URTP_DATAGRAM_SIZE : ℤ) then st.bytesSent + retValue.toNat
    else st.bytesSent
  -- main.cpp:1179-1196
  let networkConnected :=
    if retValue < 0 ∧ badMs > MAX_DURATION_SOCKET_ERRORS_MS then false
    else st.networkConnected
  let networkConnected :=
    if retValue < 0 ∧ (retValue = NSAPI_ERROR_NO_CONNECTION ∨
        retValue = NSAPI_ERROR_CONNECTION_LOST ∨
        retValue = NSAPI_ERROR_NO_SOCKET) then false
    else networkConnected
  -- main.cpp:1244-1250
  if okToDelete then
    { st with slotInUse := false, nextTx := st.nextTx + 1,
              numSendFailures := numSendFailures, bytesSent := bytesSent,
              networkConnected := networkConnected }
  else
    { st with numSendFailures := numSendFailures, bytesSent := bytesSent,
              networkConnected := networkConnected }

/-- The ring invariant maintained while no overflow occurs: the
sequence counter counts the produced datagrams, the transmitted
sequence numbers are exactly `0, 1, ..., nextTx - 1` in order, the
in-use slots are exactly the window `[nextTx, nextEmpty)` (of size at
most the pool), and slot `m % 200` of the window holds sequence number
`m`. -/
def PoolInv (p : Pool) : Prop :=
  p.seq = p.nextEmpty ∧
  p.sent = List.range p.nextTx ∧
  p.nextTx ≤ p.nextEmpty ∧
  p.nextEmpty ≤ p.nextTx + MAX_NUM_DATAGRAMS ∧
  (∀ m, p.nextTx ≤ m → m < p.nextEmpty →
    p.slots (m % MAX_NUM_DATAGRAMS) = (true, m)) ∧
  (∀ j, j < MAX_NUM_DATAGRAMS →
    (∀ m, p.nextTx ≤ m → m < p.nextEmpty → m % MAX_NUM_DATAGRAMS ≠ j) →
    (p.slots j).1 = false)

/-- The state invariant of the gain controller: the shift stays within
`[0, AUDIO_MAX_SHIFT_BITS]` and the counters stay non-negative. -/
def AudioInv (s : AudioState) : Prop :=
  0 ≤ s.shift ∧ s.shift ≤ AUDIO_MAX_SHIFT_BITS ∧
    0 ≤ s.unusedBitsMin ∧ 0 ≤ s.sampleCount

/-- A concrete sender state used by witnesses: draining a slot that is
in use, with the network up. -/
def sampleSenderState : SenderState :=
  { slotInUse := true, nextTx := 5, networkConnected := true,
    numSendFailures := 0, bytesSent := 0 }

/-!  ## Theorems -/

/-- **C5**. At every block boundary (the 320th processed sample, where
`gAudioShiftSampleCount` has reached 319 and the current sample closes
the block), `processAudio` updates the gain state exactly as specified:
clamp `gAudioShift` to `min(gAudioShift, gAudioUnusedBitsMin)`; then
increment it if `gAudioUnusedBitsMin - gAudioShift > 4` and
`gAudioShift < 12`, else decrement it if
`gAudioUnusedBitsMin - gAudioShift < 4` and `gAudioShift > 0`; finally
increment `gAudioUnusedBitsMin` by one.  (`gAudioUnusedBitsMin` at the
boundary is the running minimum including the closing sample.) -/
theorem processAudio_block_boundary (s : AudioState) (x : ℤ)
    (h : s.sampleCount = 319) :
    (processAudio s x).1.shift =
      specGainBoundaryShift s.shift (min s.unusedBitsMin (unusedBitsOf x)) ∧
    (processAudio s x).1.unusedBitsMin =
      min s.unusedBitsMin (unusedBitsOf x) + 1 ∧
    (processAudio s x).1.sampleCount = 0 := by
  simp only [processAudio, specGainBoundaryShift, AUDIO_DESIRED_UNUSED_BITS,
    AUDIO_MAX_SHIFT_BITS, SAMPLING_FREQUENCY, BLOCK_DURATION_MS, h, min_def]
  norm_num
  split_ifs <;> simp_all <;> omega

/-- Witness for `processAudio_block_boundary` at a concrete state. -/
theorem processAudio_block_boundary_witness :
    (processAudio { sampleCount := 319, unusedBitsMin := 20, shift := 3 } 0).1.shift =
      specGainBoundaryShift 3 (min 20 (unusedBitsOf 0)) ∧
    (processAudio { sampleCount := 319, unusedBitsMin := 20, shift := 3 } 0).1.unusedBitsMin =
      min 20 (unusedBitsOf 0) + 1 ∧
    (processAudio { sampleCount := 319, unusedBitsMin := 20, shift := 3 } 0).1.sampleCount = 0 :=
  processAudio_block_boundary { sampleCount := 319, unusedBitsMin := 20, shift := 3 } 0 rfl

/-- Each `processAudio` call preserves the gain-state invariant. -/
theorem processAudio_preserves_inv (s : AudioState) (x : ℤ) (h : AudioInv s) :
    AudioInv (processAudio s x).1 := by
  obtain ⟨h1, h2, h3, h4⟩ := h
  have hu : (0 : ℤ) ≤ unusedBitsOf x := Int.natCast_nonneg _
  unfold AudioInv AUDIO_MAX_SHIFT_BITS at *
  simp only [processAudio, AUDIO_DESIRED_UNUSED_BITS, AUDIO_MAX_SHIFT_BITS]
  split_ifs <;> simp_all <;> omega

/-- The invariant holds after any run of samples from an invariant
state. -/
theorem runAudio_preserves_inv (xs : List ℤ) :
    ∀ s : AudioState, AudioInv s → AudioInv (runAudio s xs) := by
  induction xs with
  | nil => intro s h; exact h
  | cons x xs ih =>
    intro s h
    have hstep : runAudio s (x :: xs) = runAudio (processAudio s x).1 xs := rfl
    rw [hstep]
    exact ih _ (processAudio_preserves_inv s x h)

/-- Processing fewer samples than remain in the block does not touch
the shift, counts the samples, and drives the running minimum below
every sample's unused-bit count. -/
theorem runAudio_no_boundary (xs : List ℤ) :
    ∀ s : AudioState, s.sampleCount + xs.length ≤ 319 →
      (runAudio s xs).shift = s.shift ∧
      (runAudio s xs).sampleCount = s.sampleCount + xs.length ∧
      (runAudio s xs).unusedBitsMin ≤ s.unusedBitsMin ∧
      (∀ y ∈ xs, (runAudio s xs).unusedBitsMin ≤ unusedBitsOf y) := by
  induction xs with
  | nil => intro s _; simp [runAudio]
  | cons x xs ih =>
    intro s hlen
    have hxs : (x :: xs).length = xs.length + 1 := by simp
    have hnb : ¬ (s.sampleCount + 1 ≥ (SAMPLING_FREQUENCY / (1000 / BLOCK_DURATION_MS) : ℕ)) := by
      unfold SAMPLING_FREQUENCY BLOCK_DURATION_MS
      norm_num
      omega
    have hstep : runAudio s (x :: xs) = runAudio (processAudio s x).1 xs := rfl
    have hfst : (processAudio s x).1 =
        { sampleCount := s.sampleCount + 1,
          unusedBitsMin :=
            if unusedBitsOf x < s.unusedBitsMin then unusedBitsOf x else s.unusedBitsMin,
          shift := s.shift } := by
      simp only [processAudio]
      rw [if_neg hnb]
    have hrec := ih (processAudio s x).1 (by rw [hfst]; simp at hlen ⊢; omega)
    rw [hstep]
    refine ⟨?_, ?_, ?_, ?_⟩
    · rw [hrec.1, hfst]
    · rw [hrec.2.1, hfst]; simp; omega
    · refine le_trans hrec.2.2.1 ?_
      rw [hfst]
      simp only
      split_ifs <;> omega
    · intro y hy
      rcases List.mem_cons.mp hy with rfl | hmem
      · refine le_trans hrec.2.2.1 ?_
        rw [hfst]
        simp only
        split_ifs <;> omega
      · exact hrec.2.2.2 y hmem

/-- **C6**. Starting from the initial state (`gAudioShift = 0`), after
every call to `processAudio` the invariant
`0 ≤ gAudioShift ≤ AUDIO_MAX_SHIFT_BITS = 12` holds; and immediately
after each block-boundary update the shift does not exceed the
minimum unused-bit count observed over the preceding 320-sample
block. -/
theorem processAudio_shift_bounds :
    (∀ xs : List ℤ, 0 ≤ (runAudio initAudioState xs).shift ∧
      (runAudio initAudioState xs).shift ≤ AUDIO_MAX_SHIFT_BITS) ∧
    (∀ (s : AudioState) (xs : List ℤ), s.sampleCount = 0 → xs.length = 320 →
      ∀ y ∈ xs, (runAudio s xs).shift ≤ unusedBitsOf y) := by
  constructor
  · intro xs
    have h0 : AudioInv initAudioState := by
      unfold AudioInv initAudioState AUDIO_MAX_SHIFT_BITS
      norm_num
    have h := runAudio_preserves_inv xs initAudioState h0
    exact ⟨h.1, h.2.1⟩
  · intro s xs hc hlen
    rcases xs.eq_nil_or_concat with rfl | ⟨ys, z, rfl⟩
    · simp at hlen
    · rw [List.concat_eq_append] at hlen ⊢
      have hys : ys.length = 319 := by
        simp at hlen
        omega
      have hsplit : runAudio s (ys ++ [z]) =
          (processAudio (runAudio s ys) z).1 := by
        simp [runAudio]
      have hnb := runAudio_no_boundary ys s (by omega)
      have hcount : (runAudio s ys).sampleCount = 319 := by
        rw [hnb.2.1, hc, hys]
        norm_num
      have hb : ((runAudio s ys).sampleCount + 1 ≥
          (SAMPLING_FREQUENCY / (1000 / BLOCK_DURATION_MS) : ℕ)) := by
        unfold SAMPLING_FREQUENCY BLOCK_DURATION_MS
        rw [hcount]
        norm_num
      have hshift : (processAudio (runAudio s ys) z).1.shift ≤
          min (runAudio s ys).unusedBitsMin (unusedBitsOf z) := by
        simp only [processAudio, AUDIO_DESIRED_UNUSED_BITS, AUDIO_MAX_SHIFT_BITS]
        rw [if_pos hb]
        simp only [min_def]
        split_ifs <;> omega
      intro y hy
      rw [hsplit]
      rcases List.mem_append.mp hy with hmem | hz
      · calc (processAudio (runAudio s ys) z).1.shift
            ≤ min (runAudio s ys).unusedBitsMin (unusedBitsOf z) := hshift
          _ ≤ (runAudio s ys).unusedBitsMin := min_le_left _ _
          _ ≤ unusedBitsOf y := hnb.2.2.2 y hmem
      · have hzy : y = z := by simpa using hz
        subst hzy
        exact le_trans hshift (min_le_right _ _)

/-- Witness for `processAudio_shift_bounds` on a block of silence. -/
theorem processAudio_shift_bounds_witness :
    (runAudio initAudioState (List.replicate 320 0)).shift ≤ unusedBitsOf 0 :=
  processAudio_shift_bounds.2 initAudioState (List.replicate 320 0) rfl
    (List.length_replicate 320 0)
    0 (List.mem_replicate.mpr ⟨by norm_num, rfl⟩)

/-- Allocations that keep hitting an in-use slot only grow the streak
and emit nothing further. -/
theorem runAlloc_replicate_true (k : ℕ) :
    ∀ (s : ℕ) (ev : List OverflowEv), 0 < s →
      runAlloc { streak := s, events := ev } (List.replicate k true) =
        { streak := s + k, events := ev } := by
  induction k with
  | zero => intro s ev _; simp [runAlloc]
  | succ k ih =>
    intro s ev hs
    rw [List.replicate_succ]
    have hstep : runAlloc { streak := s, events := ev } (true :: List.replicate k true) =
        runAlloc (allocStep { streak := s, events := ev } true).1 (List.replicate k true) := by
      simp [runAlloc]
    rw [hstep]
    have h0 : (allocStep { streak := s, events := ev } true).1 =
        { streak := s + 1, events := ev } := by
      simp [allocStep]
      omega
    rw [h0, ih (s + 1) ev (by omega)]
    congr 1
    omega

/-- **C8**. Allocation against overflow: if the slot at `nextEmpty` is
already in use, the slot is still used and the streak counter grows,
with "overflow begins" logged exactly when the streak was zero; when a
later allocation finds its slot free, exactly one "overflow ended"
event carrying the streak count is logged and the streak resets —
so a clean-state run of `n` overwrites followed by a free allocation
emits precisely `[begins, ended n]`. -/
theorem allocStep_overflow_streak :
    (∀ (st : AllocState) (b : Bool),
      (allocStep st b).2 = true ∧
      (b = true → (allocStep st b).1.streak = st.streak + 1 ∧
        (allocStep st b).1.events =
          st.events ++ if st.streak = 0 then [OverflowEv.begins] else []) ∧
      (b = false → (allocStep st b).1.streak = 0 ∧
        (allocStep st b).1.events =
          st.events ++ if 0 < st.streak then [OverflowEv.ended st.streak] else [])) ∧
    (∀ n : ℕ, 0 < n →
      runAlloc { streak := 0, events := [] } (List.replicate n true ++ [false]) =
        { streak := 0, events := [OverflowEv.begins, OverflowEv.ended n] }) := by
  constructor
  · intro st b
    refine ⟨?_, ?_, ?_⟩
    · cases b <;> simp [allocStep]
    · intro hb; subst hb; simp [allocStep]
    · intro hb; subst hb
      constructor
      · simp [allocStep]
      · simp only [allocStep]
        split_ifs <;> simp_all
  · intro n hn
    obtain ⟨m, rfl⟩ : ∃ m, n = m + 1 := ⟨n - 1, by omega⟩
    rw [List.replicate_succ]
    have h1 : runAlloc { streak := 0, events := [] }
        ((true :: List.replicate m true) ++ [false]) =
        runAlloc (allocStep { streak := 0, events := [] } true).1
          (List.replicate m true ++ [false]) := by
      simp [runAlloc]
    rw [h1]
    have h2 : (allocStep { streak := 0, events := [] } true).1 =
        { streak := 1, events := [OverflowEv.begins] } := by
      simp [allocStep]
    rw [h2]
    have h3 : runAlloc { streak := 1, events := [OverflowEv.begins] }
        (List.replicate m true ++ [false]) =
        runAlloc (runAlloc { streak := 1, events := [OverflowEv.begins] }
          (List.replicate m true)) [false] := by
      simp [runAlloc]
    rw [h3, runAlloc_replicate_true m 1 [OverflowEv.begins] (by omega)]
    simp [runAlloc, allocStep]
    omega

/-- Witness for `allocStep_overflow_streak` at a concrete run. -/
theorem allocStep_overflow_streak_witness :
    runAlloc { streak := 0, events := [] } (List.replicate 3 true ++ [false]) =
      { streak := 0, events := [OverflowEv.begins, OverflowEv.ended 3] } :=
  allocStep_overflow_streak.2 3 (by decide)

/-- **C9**. For every slot the sender drains (one iteration of the
inner loop of `sendData`, socket and server present): a send returning
exactly `URTP_DATAGRAM_SIZE` clears the slot's `inUse` flag and
advances `nextTx` by one; any other return value leaves the slot in
use and `nextTx` unchanged; and `gNetworkConnected` is cleared exactly
when the send returned a negative value and either the consecutive
bad-send timer exceeds `MAX_DURATION_SOCKET_ERRORS_MS = 1000` ms or the
error code is no-connection, connection-lost or no-socket. -/
theorem sendDataIter_slot_and_connection (st : SenderState) (rv badMs : ℤ)
    (hIn : st.slotInUse = true) (hConn : st.networkConnected = true) :
    (rv = (URTP_DATAGRAM_SIZE : ℤ) →
      (sendDataIter st rv badMs).slotInUse = false ∧
      (sendDataIter st rv badMs).nextTx = st.nextTx + 1) ∧
    (rv ≠ (URTP_DATAGRAM_SIZE : ℤ) →
      (sendDataIter st rv badMs).slotInUse = true ∧
      (sendDataIter st rv badMs).nextTx = st.nextTx) ∧
    ((sendDataIter st rv badMs).networkConnected = false ↔
      rv < 0 ∧ (badMs > MAX_DURATION_SOCKET_ERRORS_MS ∨
        rv = NSAPI_ERROR_NO_CONNECTION ∨ rv = NSAPI_ERROR_CONNECTION_LOST ∨
        rv = NSAPI_ERROR_NO_SOCKET)) := by
  refine ⟨?_, ?_, ?_⟩
  · intro h
    simp [sendDataIter, h]
  · intro h
    simp [sendDataIter, h, hIn]
  · simp only [sendDataIter]
    split_ifs <;> simp_all

/-- Witness for `sendDataIter_slot_and_connection`: a send that
returns `NSAPI_ERROR_CONNECTION_LOST` leaves the slot in use and tears
the connection flag down. -/
theorem sendDataIter_slot_and_connection_witness :
    ((-3016 : ℤ) ≠ (URTP_DATAGRAM_SIZE : ℤ) →
      (sendDataIter sampleSenderState (-3016) 0).slotInUse = true ∧
      (sendDataIter sampleSenderState (-3016) 0).nextTx = 5) ∧
    ((sendDataIter sampleSenderState (-3016) 0).networkConnected = false ↔
      (-3016 : ℤ) < 0 ∧ ((0 : ℤ) > MAX_DURATION_SOCKET_ERRORS_MS ∨
        (-3016 : ℤ) = NSAPI_ERROR_NO_CONNECTION ∨
        (-3016 : ℤ) = NSAPI_ERROR_CONNECTION_LOST ∨
        (-3016 : ℤ) = NSAPI_ERROR_NO_SOCKET)) :=
  ⟨(sendDataIter_slot_and_connection sampleSenderState (-3016) 0 rfl rfl).2.1,
   (sendDataIter_slot_and_connection sampleSenderState (-3016) 0 rfl rfl).2.2⟩

/-- **C2, counterexample**. It is not the case that every body/header
write of `fillMonoDatagramFromBlock` happens before the store of
`inUse = true`: the function stores the flag first (main.cpp:868) and
codes the body and header afterwards (main.cpp:880-921). -/
theorem fillSlotStores_not_writesBeforeFlag :
    ¬ writesBeforeFlag fillSlotStores := by
  unfold writesBeforeFlag
  decide

/-- **C2, amended**. For every datagram framed by
`fillMonoDatagramFromBlock`, the store setting the slot's `inUse` flag
to true occurs before every write of the datagram's body bytes and
header bytes into the pool slot (the reverse of the claimed order). -/
theorem fillSlotStores_flagBeforeWrites :
    flagBeforeWrites fillSlotStores := by
  unfold flagBeforeWrites
  decide

/-- Once the overflow flag is set it stays set. -/
theorem runPool_overflow_mono (sched : List PoolStep) :
    ∀ p : Pool, p.overflowed = true → (runPool p sched).overflowed = true := by
  induction sched with
  | nil => intro p h; exact h
  | cons s rest ih =>
    intro p h
    cases s with
    | produce =>
      have hstep : runPool p (PoolStep.produce :: rest) =
          runPool (poolProduce p) rest := rfl
      rw [hstep]
      exact ih _ (by simp [poolProduce, h])
    | consume =>
      have hstep : runPool p (PoolStep.consume :: rest) =
          runPool (poolConsume p) rest := rfl
      rw [hstep]
      refine ih _ ?_
      simp only [poolConsume]
      split <;> simpa using h

/-- A consumer step never changes the overflow flag. -/
theorem poolConsume_overflow (p : Pool) :
    (poolConsume p).overflowed = p.overflowed := by
  simp only [poolConsume]
  split <;> rfl

/-- Producing into a free slot preserves the ring invariant. -/
theorem poolProduce_inv (p : Pool) (hInv : PoolInv p)
    (hfree : (p.slots (p.nextEmpty % MAX_NUM_DATAGRAMS)).1 = false) :
    PoolInv (poolProduce p) := by
  simp only [PoolInv, MAX_NUM_DATAGRAMS] at hInv ⊢
  simp only [MAX_NUM_DATAGRAMS] at hfree
  obtain ⟨hseq, hsent, hle, hcap, hwin, hout⟩ := hInv
  simp only [poolProduce, MAX_NUM_DATAGRAMS, updFn]
  have hlt : p.nextEmpty < p.nextTx + 200 := by
    rcases Nat.lt_or_ge p.nextEmpty (p.nextTx + 200) with h | h
    · exact h
    · exfalso
      have hmem := hwin p.nextTx (le_refl _) (by omega)
      have hmod : p.nextTx % 200 = p.nextEmpty % 200 := by omega
      rw [hmod] at hmem
      rw [hmem] at hfree
      simp at hfree
  refine ⟨by rw [hseq], hsent, by omega, by omega, ?_, ?_⟩
  · intro m hm1 hm2
    rcases Nat.lt_or_ge m p.nextEmpty with hm | hm
    · rw [if_neg (by omega)]
      exact hwin m hm1 hm
    · have hmeq : m = p.nextEmpty := by omega
      subst hmeq
      rw [if_pos rfl, hseq]
  · intro j hj hnone
    have hjne : ¬ (j = p.nextEmpty % 200) := by
      intro hc
      exact hnone p.nextEmpty (by omega) (by omega) hc.symm
    rw [if_neg hjne]
    exact hout j hj fun m h1 h2 => hnone m h1 (by omega)

/-- A consumer step preserves the ring invariant. -/
theorem poolConsume_inv (p : Pool) (hInv : PoolInv p) :
    PoolInv (poolConsume p) := by
  simp only [PoolInv, MAX_NUM_DATAGRAMS] at hInv ⊢
  obtain ⟨hseq, hsent, hle, hcap, hwin, hout⟩ := hInv
  rcases Nat.eq_or_lt_of_le hle with heq | hlt
  · -- empty window: the slot at nextTx is free and the step is a no-op
    have hfree : (p.slots (p.nextTx % 200)).1 = false := by
      refine hout _ (by omega) ?_
      intro m h1 h2
      omega
    have hstep : poolConsume p = p := by
      simp only [poolConsume, MAX_NUM_DATAGRAMS]
      rw [if_neg (by simp [hfree])]
    rw [hstep]
    exact ⟨hseq, hsent, hle, hcap, hwin, hout⟩
  · -- non-empty window: the head slot is sent and freed
    have hhead := hwin p.nextTx (le_refl _) hlt
    have hstep : poolConsume p =
        { slots := updFn p.slots (p.nextTx % 200) (false, (p.slots (p.nextTx % 200)).2),
          nextEmpty := p.nextEmpty, nextTx := p.nextTx + 1, seq := p.seq,
          sent := p.sent ++ [(p.slots (p.nextTx % 200)).2],
          overflowed := p.overflowed } := by
      simp only [poolConsume, MAX_NUM_DATAGRAMS]
      rw [if_pos (by rw [hhead])]
    rw [hstep]
    dsimp only
    refine ⟨hseq, ?_, by omega, by omega, ?_, ?_⟩
    · rw [hsent, hhead, List.range_succ]
    · intro m hm1 hm2
      simp only [updFn]
      rw [if_neg (by omega)]
      exact hwin m (by omega) hm2
    · intro j hj hnone
      simp only [updFn]
      by_cases hjeq : j = p.nextTx % 200
      · rw [if_pos hjeq]
      · rw [if_neg hjeq]
        refine hout j hj ?_
        intro m h1 h2
        rcases Nat.eq_or_lt_of_le h1 with rfl | h1'
        · intro hc
          exact hjeq hc.symm
        · exact hnone m h1' h2

/-- The ring invariant holds along any overflow-free run. -/
theorem runPool_inv (sched : List PoolStep) :
    ∀ p : Pool, PoolInv p → (runPool p sched).overflowed = false →
      p.overflowed = false → PoolInv (runPool p sched) := by
  induction sched with
  | nil => intro p h _ _; exact h
  | cons s rest ih =>
    intro p hInv hrun hov
    cases s with
    | produce =>
      have hstep : runPool p (PoolStep.produce :: rest) =
          runPool (poolProduce p) rest := rfl
      rw [hstep] at hrun ⊢
      have hov' : (poolProduce p).overflowed = false := by
        by_contra h
        rw [runPool_overflow_mono rest _ (by simpa using h)] at hrun
        simp at hrun
      have hfree : (p.slots (p.nextEmpty % MAX_NUM_DATAGRAMS)).1 = false := by
        simp only [poolProduce, hov, Bool.false_or] at hov'
        exact hov'
      exact ih _ (poolProduce_inv p hInv hfree) hrun hov'
    | consume =>
      have hstep : runPool p (PoolStep.consume :: rest) =
          runPool (poolConsume p) rest := rfl
      rw [hstep] at hrun ⊢
      exact ih _ (poolConsume_inv p hInv) hrun
        (by rw [poolConsume_overflow]; exact hov)

/-- The invariant holds of the freshly initialised pool. -/
theorem initPool_inv : PoolInv initPool := by
  refine ⟨rfl, rfl, le_refl _, by norm_num [initPool, MAX_NUM_DATAGRAMS], ?_, ?_⟩
  · intro m h1 h2
    simp [initPool] at h2
  · intro j hj1 hj2
    rfl

/-- Consecutive serial numbers are one step apart on the wire. -/
theorem fDist_succ (a : ℕ) : fDist a (a + 1) = 1 := by
  unfold fDist wire16
  omega

/-- A run of consecutive numbers is strictly monotone on the wire. -/
theorem wireMonoB_range' (m : ℕ) : ∀ k, wireMonoB (List.range' k m) = true := by
  induction m with
  | zero => intro k; rfl
  | succ m ih =>
    intro k
    cases m with
    | zero => rfl
    | succ m2 =>
      rw [List.range'_succ]
      rw [List.range'_succ (k + 1) m2]
      simp only [wireMonoB]
      rw [← List.range'_succ (k + 1) m2]
      rw [ih (k + 1)]
      simp only [Bool.and_true, Bool.and_eq_true, decide_eq_true_eq]
      rw [fDist_succ]
      omega

set_option maxRecDepth 4000 in
/-- **C3, counterexample**. In an execution where the pool has
overflowed (201 datagrams framed against a 200-slot pool before the
sender runs), the sender transmits sequence number 200 (the overwrite)
and then sequence number 1 — the carried 16-bit sequence numbers are
not strictly monotonically increasing modulo `2^16`. -/
theorem pool_seq_not_monotone_with_overflow :
    (runPool initPool (List.replicate 201 PoolStep.produce ++
      [PoolStep.consume, PoolStep.consume])).overflowed = true ∧
    (runPool initPool (List.replicate 201 PoolStep.produce ++
      [PoolStep.consume, PoolStep.consume])).sent = [200, 1] ∧
    wireMonoB ((runPool initPool (List.replicate 201 PoolStep.produce ++
      [PoolStep.consume, PoolStep.consume])).sent) = false := by
  refine ⟨by decide, by decide, by decide⟩

/-- **C3, amended**. In every execution in which the pool never
overflows, the 16-bit sequence numbers carried by successively
transmitted datagrams are strictly monotonically increasing modulo
`2^16` (consecutive, in fact); with overflow the guarantee fails, as
`pool_seq_not_monotone_with_overflow` shows. -/
theorem pool_seq_monotone_without_overflow (sched : List PoolStep)
    (h : (runPool initPool sched).overflowed = false) :
    wireMonoB (runPool initPool sched).sent = true := by
  have hinv := runPool_inv sched initPool initPool_inv h rfl
  rw [hinv.2.1, List.range_eq_range']
  exact wireMonoB_range' _ 0

/-- Witness for `pool_seq_monotone_without_overflow` on a short
overflow-free schedule. -/
theorem pool_seq_monotone_without_overflow_witness :
    wireMonoB (runPool initPool
      [PoolStep.produce, PoolStep.produce, PoolStep.consume]).sent = true :=
  pool_seq_monotone_without_overflow
    [PoolStep.produce, PoolStep.produce, PoolStep.consume] (by decide)

/-- The destination cursor advances once per sample written. -/
theorem writeSamples_snd (buf : List ℤ) (sh : ℕ) :
    ∀ (out : ℕ → ℕ) (pos : ℕ), (writeSamples buf sh out pos).2 = pos + buf.length := by
  induction buf with
  | nil => intro out pos; simp [writeSamples]
  | cons v t ih =>
    intro out pos
    have hstep : writeSamples (v :: t) sh out pos =
        writeSamples t sh (updFn out pos ((asr v sh).emod (2 ^ 8)).toNat) (pos + 1) := rfl
    rw [hstep, ih]
    simp
    omega

/-- The sample writes only touch bytes below `pos + buf.length`. -/
theorem writeSamples_out_ge (buf : List ℤ) (sh : ℕ) :
    ∀ (out : ℕ → ℕ) (pos k : ℕ), pos + buf.length ≤ k →
      (writeSamples buf sh out pos).1 k = out k := by
  induction buf with
  | nil => intro out pos k _; simp [writeSamples]
  | cons v t ih =>
    intro out pos k hk
    have hstep : writeSamples (v :: t) sh out pos =
        writeSamples t sh (updFn out pos ((asr v sh).emod (2 ^ 8)).toNat) (pos + 1) := rfl
    rw [hstep, ih _ _ _ (by simp at hk ⊢; omega)]
    simp only [updFn]
    rw [if_neg (by simp at hk; omega)]

/-- A sample that does not complete a sub-block only accumulates. -/
theorem codeUnicamSample_nonfull (st : UnicamState) (x : ℤ)
    (h : st.buf.length + 1 < 16) :
    codeUnicamSample st x =
      { st with
        audio := (processAudio st.audio x).1,
        buf := st.buf ++ [(processAudio st.audio x).2],
        maxSample :=
          if cAbs (processAudio st.audio x).2 > st.maxSample
          then cAbs (processAudio st.audio x).2 else st.maxSample } := by
  simp only [codeUnicamSample, SAMPLES_PER_UNICAM_BLOCK, SAMPLING_FREQUENCY]
  rw [if_neg (by simp; omega)]

/-- Feeding fewer samples than complete a sub-block leaves everything
but the scratch buffer, running maximum and audio state untouched. -/
theorem codeUnicam_fill (xs : List ℤ) :
    ∀ st : UnicamState, st.buf.length + xs.length < 16 →
      (xs.foldl codeUnicamSample st).pos = st.pos ∧
      (xs.foldl codeUnicamSample st).out = st.out ∧
      (xs.foldl codeUnicamSample st).numBlocks = st.numBlocks ∧
      (xs.foldl codeUnicamSample st).isEven = st.isEven ∧
      (xs.foldl codeUnicamSample st).coded = st.coded ∧
      (xs.foldl codeUnicamSample st).buf.length = st.buf.length + xs.length := by
  induction xs with
  | nil => intro st _; simp
  | cons x t ih =>
    intro st hlen
    simp only [List.length_cons] at hlen
    have hx : codeUnicamSample st x =
        { st with
          audio := (processAudio st.audio x).1,
          buf := st.buf ++ [(processAudio st.audio x).2],
          maxSample :=
            if cAbs (processAudio st.audio x).2 > st.maxSample
            then cAbs (processAudio st.audio x).2 else st.maxSample } :=
      codeUnicamSample_nonfull st x (by omega)
    have hstep : (x :: t).foldl codeUnicamSample st =
        t.foldl codeUnicamSample (codeUnicamSample st x) := rfl
    rw [hstep, hx]
    obtain ⟨h1, h2, h3, h4, h5, h6⟩ := ih { st with
        audio := (processAudio st.audio x).1,
        buf := st.buf ++ [(processAudio st.audio x).2],
        maxSample :=
          if cAbs (processAudio st.audio x).2 > st.maxSample
          then cAbs (processAudio st.audio x).2 else st.maxSample }
      (by simp; omega)
    refine ⟨h1, h2, h3, h4, h5, ?_⟩
    rw [h6]
    simp
    omega

/-- One complete sub-block of 16 samples, started with an empty scratch
buffer: it advances the destination by 16 bytes (17 for an odd
sub-block, which first steps past the shared shift byte), increments
the sub-block counter, records the parity, and touches no byte at or
beyond `pos + 17`. -/
theorem codeUnicam_chunk (st : UnicamState) (hbuf : st.buf = [])
    (xs : List ℤ) (hlen : xs.length = 16) :
    (xs.foldl codeUnicamSample st).buf = [] ∧
    (xs.foldl codeUnicamSample st).numBlocks = st.numBlocks + 1 ∧
    (xs.foldl codeUnicamSample st).pos =
      st.pos + (if st.numBlocks % 2 = 0 then 16 else 17) ∧
    (xs.foldl codeUnicamSample st).isEven = decide (st.numBlocks % 2 = 0) ∧
    (∀ k, st.pos + 17 ≤ k → (xs.foldl codeUnicamSample st).out k = st.out k) := by
  rcases xs.eq_nil_or_concat with rfl | ⟨ys, z, rfl⟩
  · simp at hlen
  · rw [List.concat_eq_append] at hlen ⊢
    have hys : ys.length = 15 := by
      simp at hlen
      omega
    have hsplit : (ys ++ [z]).foldl codeUnicamSample st =
        codeUnicamSample (ys.foldl codeUnicamSample st) z := by
      simp
    obtain ⟨hA1, hA2, hA3, hA4, hA5, hA6⟩ :=
      codeUnicam_fill ys st (by rw [hbuf]; simp [hys])
    rw [hsplit]
    have hlen16 : ((ys.foldl codeUnicamSample st).buf ++
        [(processAudio (ys.foldl codeUnicamSample st).audio z).2]).length = 16 := by
      simp only [List.length_append, List.length_cons, List.length_nil, hA6, hbuf]
      simp [hys]
    have hfull : ((ys.foldl codeUnicamSample st).buf ++
        [(processAudio (ys.foldl codeUnicamSample st).audio z).2]).length ≥
        SAMPLES_PER_UNICAM_BLOCK := by
      rw [hlen16]
      simp [SAMPLES_PER_UNICAM_BLOCK, SAMPLING_FREQUENCY]
    simp only [codeUnicamSample]
    rw [if_pos hfull]
    refine ⟨rfl, ?_, ?_, ?_, ?_⟩
    · dsimp only
      rw [hA3]
    · dsimp only
      rw [writeSamples_snd, hlen16, hA3, hA1]
      by_cases hpar : st.numBlocks % 2 = 0 <;> simp [hpar]
    · dsimp only
      rw [hA3]
    · intro k hk
      dsimp only
      rw [hA3, hA1, hA2]
      by_cases hpar : st.numBlocks % 2 = 0
      · rw [if_pos hpar, if_neg (not_not_intro hpar), if_neg (not_not_intro hpar)]
        simp only [updFn]
        rw [writeSamples_snd, hlen16]
        rw [if_neg (by omega)]
        rw [writeSamples_out_ge _ _ _ _ _ (by rw [hlen16]; omega)]
      · rw [if_neg hpar, if_pos hpar, if_pos hpar]
        rw [writeSamples_out_ge _ _ _ _ _ (by rw [hlen16]; omega)]
        simp only [updFn]
        rw [if_neg (by omega)]

/-- The sample writes leave every byte below the starting cursor
untouched. -/
theorem writeSamples_out_lt (buf : List ℤ) (sh : ℕ) :
    ∀ (out : ℕ → ℕ) (pos k : ℕ), k < pos →
      (writeSamples buf sh out pos).1 k = out k := by
  induction buf with
  | nil => intro out pos k _; simp [writeSamples]
  | cons v t ih =>
    intro out pos k hk
    have hstep : writeSamples (v :: t) sh out pos =
        writeSamples t sh (updFn out pos ((asr v sh).emod (2 ^ 8)).toNat) (pos + 1) := rfl
    rw [hstep, ih _ _ _ (by omega)]
    simp only [updFn]
    rw [if_neg (by omega)]

/-- A complete sub-block leaves every byte below the starting cursor
untouched. -/
theorem codeUnicam_chunk_out_lt (st : UnicamState) (hbuf : st.buf = [])
    (xs : List ℤ) (hlen : xs.length = 16) :
    ∀ k, k < st.pos → (xs.foldl codeUnicamSample st).out k = st.out k := by
  rcases xs.eq_nil_or_concat with rfl | ⟨ys, z, rfl⟩
  · simp at hlen
  · rw [List.concat_eq_append] at hlen ⊢
    have hys : ys.length = 15 := by
      simp at hlen
      omega
    have hsplit : (ys ++ [z]).foldl codeUnicamSample st =
        codeUnicamSample (ys.foldl codeUnicamSample st) z := by
      simp
    obtain ⟨hA1, hA2, hA3, hA4, hA5, hA6⟩ :=
      codeUnicam_fill ys st (by rw [hbuf]; simp [hys])
    rw [hsplit]
    have hlen16 : ((ys.foldl codeUnicamSample st).buf ++
        [(processAudio (ys.foldl codeUnicamSample st).audio z).2]).length = 16 := by
      simp only [List.length_append, List.length_cons, List.length_nil, hA6, hbuf]
      simp [hys]
    have hfull : ((ys.foldl codeUnicamSample st).buf ++
        [(processAudio (ys.foldl codeUnicamSample st).audio z).2]).length ≥
        SAMPLES_PER_UNICAM_BLOCK := by
      rw [hlen16]
      simp [SAMPLES_PER_UNICAM_BLOCK, SAMPLING_FREQUENCY]
    simp only [codeUnicamSample]
    rw [if_pos hfull]
    intro k hk
    dsimp only
    rw [hA3, hA1, hA2]
    by_cases hpar : st.numBlocks % 2 = 0
    · rw [if_pos hpar, if_neg (not_not_intro hpar), if_neg (not_not_intro hpar)]
      simp only [updFn]
      rw [writeSamples_snd, hlen16]
      rw [if_neg (by omega)]
      rw [writeSamples_out_lt _ _ _ _ _ (by omega)]
    · rw [if_neg hpar, if_pos hpar, if_pos hpar]
      rw [writeSamples_out_lt _ _ _ _ _ (by omega)]
      simp only [updFn]
      rw [if_neg (by omega)]

/-- A run of complete sub-blocks leaves every byte below the starting
cursor untouched. -/
theorem codeUnicam_chunks_out_lt (n : ℕ) :
    ∀ (st : UnicamState) (xs : List ℤ), st.buf = [] → xs.length = 16 * n →
      ∀ k, k < st.pos → (xs.foldl codeUnicamSample st).out k = st.out k := by
  induction n with
  | zero =>
    intro st xs _ hlen k _
    have hnil : xs = [] := List.length_eq_zero.mp (by omega)
    subst hnil
    rfl
  | succ n ih =>
    intro st xs hbuf hlen k hk
    have hx : xs = xs.take 16 ++ xs.drop 16 := (List.take_append_drop 16 xs).symm
    have hsplit : xs.foldl codeUnicamSample st =
        (xs.drop 16).foldl codeUnicamSample ((xs.take 16).foldl codeUnicamSample st) := by
      conv_lhs => rw [hx]
      rw [List.foldl_append]
    have hlen1 : (xs.take 16).length = 16 := by
      rw [List.length_take, hlen]
      omega
    obtain ⟨hc1, hc2, hc3, hc4, hc5⟩ := codeUnicam_chunk st hbuf (xs.take 16) hlen1
    rw [hsplit,
      ih ((xs.take 16).foldl codeUnicamSample st) (xs.drop 16) hc1
        (by rw [List.length_drop, hlen]; omega) k
        (by rw [hc3]; split_ifs <;> omega),
      codeUnicam_chunk_out_lt st hbuf (xs.take 16) hlen1 k hk]

/-- Two consecutive sub-blocks (an even/odd pair of 16 samples each)
advance the destination by exactly `TWO_UNICAM_BLOCKS_SIZE = 33`
bytes. -/
theorem codeUnicam_pair (st : UnicamState) (hbuf : st.buf = [])
    (heven : st.numBlocks % 2 = 0) (xs : List ℤ) (hlen : xs.length = 32) :
    (xs.foldl codeUnicamSample st).buf = [] ∧
    (xs.foldl codeUnicamSample st).numBlocks = st.numBlocks + 2 ∧
    (xs.foldl codeUnicamSample st).pos = st.pos + 33 ∧
    (xs.foldl codeUnicamSample st).isEven = false ∧
    (∀ k, st.pos + 33 ≤ k → (xs.foldl codeUnicamSample st).out k = st.out k) := by
  have hx : xs = xs.take 16 ++ xs.drop 16 := (List.take_append_drop 16 xs).symm
  have hsplit : xs.foldl codeUnicamSample st =
      (xs.drop 16).foldl codeUnicamSample ((xs.take 16).foldl codeUnicamSample st) := by
    conv_lhs => rw [hx]
    rw [List.foldl_append]
  obtain ⟨hm1, hm2, hm3, hm4, hm5⟩ :=
    codeUnicam_chunk st hbuf (xs.take 16) (by rw [List.length_take, hlen]; omega)
  obtain ⟨hf1, hf2, hf3, hf4, hf5⟩ :=
    codeUnicam_chunk ((xs.take 16).foldl codeUnicamSample st) hm1 (xs.drop 16)
      (by rw [List.length_drop, hlen])
  rw [if_pos heven] at hm3
  have hodd : ¬ (((xs.take 16).foldl codeUnicamSample st).numBlocks % 2 = 0) := by
    rw [hm2]
    omega
  rw [if_neg hodd] at hf3
  rw [hsplit]
  refine ⟨hf1, by rw [hf2, hm2], by rw [hf3, hm3], ?_, ?_⟩
  · rw [hf4]
    exact decide_eq_false hodd
  · intro k hk
    rw [hf5 k (by omega), hm5 k (by omega)]

/-- `n` pairs of sub-blocks from a fresh block state advance the
destination by `33 * n` bytes and leave every byte at or beyond
`pos + 33 * n` untouched. -/
theorem codeUnicam_pairs (n : ℕ) :
    ∀ (st : UnicamState) (xs : List ℤ), st.buf = [] →
      st.numBlocks % 2 = 0 → xs.length = 32 * n →
      (xs.foldl codeUnicamSample st).buf = [] ∧
      (xs.foldl codeUnicamSample st).numBlocks = st.numBlocks + 2 * n ∧
      (xs.foldl codeUnicamSample st).pos = st.pos + 33 * n ∧
      ((xs.foldl codeUnicamSample st).isEven =
        if n = 0 then st.isEven else false) ∧
      (∀ k, st.pos + 33 * n ≤ k →
        (xs.foldl codeUnicamSample st).out k = st.out k) := by
  induction n with
  | zero =>
    intro st xs hbuf heven hlen
    have hnil : xs = [] := List.length_eq_zero.mp (by omega)
    subst hnil
    simp [hbuf]
  | succ n ih =>
    intro st xs hbuf heven hlen
    have hx : xs = xs.take 32 ++ xs.drop 32 := (List.take_append_drop 32 xs).symm
    have hsplit : xs.foldl codeUnicamSample st =
        (xs.drop 32).foldl codeUnicamSample ((xs.take 32).foldl codeUnicamSample st) := by
      conv_lhs => rw [hx]
      rw [List.foldl_append]
    obtain ⟨hp1, hp2, hp3, hp4, hp5⟩ :=
      codeUnicam_pair st hbuf heven (xs.take 32)
        (by rw [List.length_take, hlen]; omega)
    obtain ⟨hq1, hq2, hq3, hq4, hq5⟩ :=
      ih ((xs.take 32).foldl codeUnicamSample st) (xs.drop 32) hp1
        (by rw [hp2]; omega) (by rw [List.length_drop, hlen]; omega)
    rw [hsplit]
    refine ⟨hq1, ?_, ?_, ?_, ?_⟩
    · rw [hq2, hp2]
      ring
    · rw [hq3, hp3]
      ring
    · rw [hq4]
      rcases Nat.eq_zero_or_pos n with rfl | hn
      · simp [hp4]
      · rw [if_neg (by omega), if_neg (by omega)]
    · intro k hk
      rw [hq5 k (by rw [hp3]; omega), hp5 k (by omega)]

/-- **C4**. For every 320-sample audio block under the compiled
UNICAM-8 coding, from any fresh per-call codec state (`numBlocks = 0`,
`pos = 0`, empty scratch buffer, arbitrary carried-over audio state,
indeterminate `shiftValueCoded` / `isEvenBlock`, arbitrary prior
destination contents), `codeUnicam` returns exactly
`URTP_BODY_SIZE = 330` bytes, writes only within the 330-byte body,
and the big-endian byte count at header offsets 12-13 equals
`URTP_DATAGRAM_SIZE - URTP_HEADER_SIZE`, the number of body bytes of
the `URTP_DATAGRAM_SIZE`-byte datagram the sender transmits. -/
theorem codeUnicam_body_size_and_header (a : AudioState) (c0 : ℕ) (e0 : Bool)
    (o0 : ℕ → ℕ) (xs : List ℤ) (hlen : xs.length = 320) (seq : ℤ) (ts : ℕ) :
    (codeUnicam (freshUnicamState a c0 e0 o0) xs).2 = (URTP_BODY_SIZE : ℤ) ∧
    (codeUnicam (freshUnicamState a c0 e0 o0) xs).1.pos = URTP_BODY_SIZE ∧
    (∀ k, URTP_BODY_SIZE ≤ k →
      (codeUnicam (freshUnicamState a c0 e0 o0) xs).1.out k = o0 k) ∧
    URTP_DATAGRAM_SIZE = URTP_HEADER_SIZE + URTP_BODY_SIZE ∧
    (urtpHeader 1 seq ts
        (codeUnicam (freshUnicamState a c0 e0 o0) xs).2).getD 12 0 * 2 ^ 8 +
      (urtpHeader 1 seq ts
        (codeUnicam (freshUnicamState a c0 e0 o0) xs).2).getD 13 0 =
      URTP_DATAGRAM_SIZE - URTP_HEADER_SIZE := by
  obtain ⟨h1, h2, h3, h4, h5⟩ :=
    codeUnicam_pairs 10 (freshUnicamState a c0 e0 o0) xs
      (by simp [freshUnicamState]) (by simp [freshUnicamState]) (by rw [hlen])
  have hpos : (xs.foldl codeUnicamSample (freshUnicamState a c0 e0 o0)).pos = 330 := by
    rw [h3]
    simp [freshUnicamState]
  have hisEven :
      (xs.foldl codeUnicamSample (freshUnicamState a c0 e0 o0)).isEven = false := by
    rw [h4]
    norm_num
  have hret : (codeUnicam (freshUnicamState a c0 e0 o0) xs).2 = (330 : ℤ) := by
    simp only [codeUnicam, hisEven, hpos]
    norm_num
  refine ⟨?_, ?_, ?_, by decide, ?_⟩
  · rw [hret]
    decide
  · simp only [codeUnicam, hpos, URTP_BODY_SIZE, UNICAM_BLOCKS_PER_BLOCK,
      TWO_UNICAM_BLOCKS_SIZE, SAMPLES_PER_BLOCK, SAMPLES_PER_UNICAM_BLOCK,
      SAMPLING_FREQUENCY, BLOCK_DURATION_MS]
  · intro k hk
    simp only [codeUnicam]
    have := h5 k (by
      simp only [freshUnicamState]
      simp only [URTP_BODY_SIZE, UNICAM_BLOCKS_PER_BLOCK,
        TWO_UNICAM_BLOCKS_SIZE, SAMPLES_PER_BLOCK, SAMPLES_PER_UNICAM_BLOCK,
        SAMPLING_FREQUENCY, BLOCK_DURATION_MS] at hk
      omega)
    rw [this]
    simp [freshUnicamState]
  · rw [hret]
    simp only [urtpHeader]
    norm_num [List.getD]
    decide

set_option maxRecDepth 10000 in
/-- **C1**. The claim — that every sub-block's wire nibble equals
`max(0, shift32 - 16)`, in particular 0 whenever the sub-block's peak
uses fewer than 24 bits — is wrong of the code: `shiftValueCoded` is
only assigned when `shiftValue32Bit >= 16` (main.cpp:726-728) and
otherwise keeps its previous (initially indeterminate) value.  On the
audio block whose first sample is `-2^23` and whose remaining 319
samples are zero, sub-block 0 peaks at `2^23` (25 used bits,
`shift32 = 17`, coded nibble 1), while sub-block 1 is all zero
(`shift32 = 0 < 16`), so the spec formula gives nibble 0 — yet the
code writes the stale nibble 1 for sub-block 1 (the low nibble of body
byte 16). -/
theorem codeUnicam_stale_shift_nibble :
    specCodedShift (2 ^ 23) = 1 ∧
    specCodedShift 0 = 0 ∧
    (codeUnicam (initUnicamState 0 false (fun _ => 0))
      ((-(2 ^ 23) : ℤ) :: List.replicate 319 0)).1.out 16 % 2 ^ 4 = 1 ∧
    (codeUnicam (initUnicamState 0 false (fun _ => 0))
      ((-(2 ^ 23) : ℤ) :: List.replicate 319 0)).1.out 16 / 2 ^ 4 = 1 := by
  have hA : (((-(2 ^ 23) : ℤ) :: List.replicate 31 0).foldl codeUnicamSample
        (initUnicamState 0 false (fun _ => 0))).out 16 = 17 ∧
      (((-(2 ^ 23) : ℤ) :: List.replicate 31 0).foldl codeUnicamSample
        (initUnicamState 0 false (fun _ => 0))).buf = [] ∧
      (((-(2 ^ 23) : ℤ) :: List.replicate 31 0).foldl codeUnicamSample
        (initUnicamState 0 false (fun _ => 0))).pos = 33 :=
    ⟨by decide, by decide, by decide⟩
  have hsplitlist : ((-(2 ^ 23) : ℤ) :: List.replicate 319 0) =
      ((-(2 ^ 23) : ℤ) :: List.replicate 31 0) ++ List.replicate 288 0 := by
    have : (319 : ℕ) = 31 + 288 := by norm_num
    rw [this, List.replicate_add]
    rfl
  have hout : (codeUnicam (initUnicamState 0 false (fun _ => 0))
      ((-(2 ^ 23) : ℤ) :: List.replicate 319 0)).1.out 16 =
      (((-(2 ^ 23) : ℤ) :: List.replicate 31 0).foldl codeUnicamSample
        (initUnicamState 0 false (fun _ => 0))).out 16 := by
    simp only [codeUnicam]
    rw [hsplitlist, List.foldl_append]
    exact codeUnicam_chunks_out_lt 18 _ (List.replicate 288 0) hA.2.1
      (by simp) 16 (by rw [hA.2.2]; omega)
  refine ⟨by decide, by decide, ?_, ?_⟩
  · rw [hout, hA.1]
    norm_num
  · rw [hout, hA.1]
    norm_num

/-- Witness for `codeUnicam_body_size_and_header` on a silent block. -/
theorem codeUnicam_body_size_and_header_witness :
    (codeUnicam (freshUnicamState initAudioState 0 false (fun _ => 0))
      (List.replicate 320 0)).2 = (URTP_BODY_SIZE : ℤ) ∧
    URTP_DATAGRAM_SIZE = URTP_HEADER_SIZE + URTP_BODY_SIZE :=
  ⟨(codeUnicam_body_size_and_header initAudioState 0 false (fun _ => 0)
      (List.replicate 320 0) (List.length_replicate 320 0) 0 0).1,
   (codeUnicam_body_size_and_header initAudioState 0 false (fun _ => 0)
      (List.replicate 320 0) (List.length_replicate 320 0) 0 0).2.2.2.1⟩

/-- Counting a natural number below `n` in the cast of `List.range n`. -/
theorem count_cast_range (n k : ℕ) (h : k < n) :
    ((List.range n).map (fun j : ℕ => (j : ℤ))).count (k : ℤ) = 1 := by
  have hinj : Function.Injective (fun j : ℕ => (j : ℤ)) := fun a b hab => by
    simpa using hab
  rw [List.count_map_of_injective _ _ hinj]
  exact List.nodup_iff_count_eq_one.mp (List.nodup_range n) k (List.mem_range.mpr h)

/-- **C10**. An execution of `tcpSend` in which the socket first
accepts 100 bytes of the 344-byte datagram, a later `send` returns a
negative error, and the timer then expires: `tcpSend` returns the
negative error rather than 100; `sendData` therefore treats the
datagram as wholly unsent (slot left in use, `nextTx` unchanged, and
for a transient error the connection flag stays up), and the retry that
later sends the whole datagram from its first byte puts each of the
first 100 byte offsets on the TCP stream twice. -/
theorem tcpSend_partial_bytes_sent_twice :
    tcpSend (URTP_DATAGRAM_SIZE : ℤ) [(0, 100), (10, NSAPI_ERROR_WOULD_BLOCK), (1600, 0)] =
      NSAPI_ERROR_WOULD_BLOCK ∧
    NSAPI_ERROR_WOULD_BLOCK < 0 ∧
    tcpSendChunks (URTP_DATAGRAM_SIZE : ℤ) 0
      [(0, 100), (10, NSAPI_ERROR_WOULD_BLOCK), (1600, 0)] = [(0, 100)] ∧
    (sendDataIter sampleSenderState NSAPI_ERROR_WOULD_BLOCK 50).slotInUse = true ∧
    (sendDataIter sampleSenderState NSAPI_ERROR_WOULD_BLOCK 50).nextTx =
      sampleSenderState.nextTx ∧
    (sendDataIter sampleSenderState NSAPI_ERROR_WOULD_BLOCK 50).networkConnected = true ∧
    tcpSend (URTP_DATAGRAM_SIZE : ℤ) [(0, (URTP_DATAGRAM_SIZE : ℤ))] =
      (URTP_DATAGRAM_SIZE : ℤ) ∧
    tcpSendChunks (URTP_DATAGRAM_SIZE : ℤ) 0 [(0, (URTP_DATAGRAM_SIZE : ℤ))] =
      [(0, (URTP_DATAGRAM_SIZE : ℤ))] ∧
    (∀ k : ℕ, k < 100 →
      (streamOffsets (tcpSendChunks (URTP_DATAGRAM_SIZE : ℤ) 0
          [(0, 100), (10, NSAPI_ERROR_WOULD_BLOCK), (1600, 0)]) ++
        streamOffsets (tcpSendChunks (URTP_DATAGRAM_SIZE : ℤ) 0
          [(0, (URTP_DATAGRAM_SIZE : ℤ))])).count (k : ℤ) = 2) := by
  refine ⟨by decide, by decide, by decide, by decide, by decide, by decide,
    by decide, by decide, ?_⟩
  intro k hk
  have hA : streamOffsets (tcpSendChunks (URTP_DATAGRAM_SIZE : ℤ) 0
      [(0, 100), (10, NSAPI_ERROR_WOULD_BLOCK), (1600, 0)]) =
      (List.range 100).map (fun j : ℕ => (j : ℤ)) := by
    simp [streamOffsets, tcpSendChunks, tcpSend, NSAPI_ERROR_WOULD_BLOCK,
      URTP_DATAGRAM_SIZE, URTP_HEADER_SIZE, URTP_BODY_SIZE,
      UNICAM_BLOCKS_PER_BLOCK, TWO_UNICAM_BLOCKS_SIZE, SAMPLES_PER_BLOCK,
      SAMPLES_PER_UNICAM_BLOCK, SAMPLING_FREQUENCY, BLOCK_DURATION_MS,
      TCP_SEND_TIMEOUT_MS]
    exact (List.map_eq_flatMap _ _).symm
  have hB : streamOffsets (tcpSendChunks (URTP_DATAGRAM_SIZE : ℤ) 0
      [(0, (URTP_DATAGRAM_SIZE : ℤ))]) =
      (List.range 344).map (fun j : ℕ => (j : ℤ)) := by
    simp [streamOffsets, tcpSendChunks, tcpSend,
      URTP_DATAGRAM_SIZE, URTP_HEADER_SIZE, URTP_BODY_SIZE,
      UNICAM_BLOCKS_PER_BLOCK, TWO_UNICAM_BLOCKS_SIZE, SAMPLES_PER_BLOCK,
      SAMPLES_PER_UNICAM_BLOCK, SAMPLING_FREQUENCY, BLOCK_DURATION_MS,
      TCP_SEND_TIMEOUT_MS]
    exact (List.map_eq_flatMap _ _).symm
  rw [hA, hB, List.count_append, count_cast_range 100 k hk,
    count_cast_range 344 k (by omega)]

/-- Setting the high byte of a 32-bit word whose low 24 bits hold `r`
is an addition when `r` fits in 24 bits. -/
theorem lor_high_byte {r : ℕ} (h : r < 2 ^ 24) :
    r ||| 0xFF000000 = 0xFF000000 + r := by
  rw [Nat.lor_comm]
  have hor := Nat.mul_add_lt_is_or (i := 24) (b := r) h 255
  norm_num at hor ⊢
  omega

/-- Bit 23 of a 24-bit value is its top bit. -/
theorem and_bit23_ne_zero_iff {r : ℕ} (h : r < 2 ^ 24) :
    r &&& 0x800000 ≠ 0 ↔ 2 ^ 23 ≤ r := by
  have hand := Nat.and_two_pow r 23
  have htb : r.testBit 23 = decide (r / 2 ^ 23 % 2 = 1) := Nat.testBit_to_div_mod
  constructor
  · intro hne
    by_contra hlt
    have : r.testBit 23 = false := Nat.testBit_lt_two_pow (by omega)
    rw [this] at hand
    norm_num at hand
    exact hne (by omega)
  · intro hge
    have : r.testBit 23 = true := by
      rw [htb]
      simp only [decide_eq_true_eq]
      omega
    rw [this] at hand
    norm_num at hand
    omega

/-- **C7**. `getMonoSample` returns the value assembled as
`(byte[1] << 16) | (byte[0] << 8) | byte[3]` with bit 23 sign-extended
through bits 31..24, a value in `[-2^23, 2^23)`; and whenever
`byte[2] != 0xFF` only the `gPossibleBadAudio` counter is incremented,
the returned sample being unaffected (it equals the same assembled
value, which does not involve `byte[2]`). -/
theorem getMonoSample_spec (b : ℕ → ℕ) (hb : ∀ i, b i < 2 ^ 8) (ctr : ℕ) :
    (getMonoSample b ctr).1 = specMonoValue b ∧
    -(2 ^ 23) ≤ (getMonoSample b ctr).1 ∧
    (getMonoSample b ctr).1 < 2 ^ 23 ∧
    (getMonoSample b ctr).2 = (if b 2 ≠ 0xFF then ctr + 1 else ctr) := by
  have hb0 := hb 0
  have hb1 := hb 1
  have hb3 := hb 3
  have hr24 : b 3 + b 0 * 2 ^ 8 + b 1 * 2 ^ 16 < 2 ^ 24 := by omega
  have hval : (getMonoSample b ctr).1 =
      (if 2 ^ 23 ≤ b 3 + b 0 * 2 ^ 8 + b 1 * 2 ^ 16
       then ((b 3 + b 0 * 2 ^ 8 + b 1 * 2 ^ 16 : ℕ) : ℤ) - 2 ^ 24
       else ((b 3 + b 0 * 2 ^ 8 + b 1 * 2 ^ 16 : ℕ) : ℤ)) := by
    simp only [getMonoSample, toInt32]
    by_cases hge : 2 ^ 23 ≤ b 3 + b 0 * 2 ^ 8 + b 1 * 2 ^ 16
    · have h1 : (if b 3 + b 0 * 2 ^ 8 + b 1 * 2 ^ 16 &&& 0x800000 ≠ 0
          then b 3 + b 0 * 2 ^ 8 + b 1 * 2 ^ 16 ||| 0xFF000000
          else b 3 + b 0 * 2 ^ 8 + b 1 * 2 ^ 16) =
          0xFF000000 + (b 3 + b 0 * 2 ^ 8 + b 1 * 2 ^ 16) := by
        rw [if_pos ((and_bit23_ne_zero_iff hr24).mpr hge), lor_high_byte hr24]
      rw [h1, Nat.mod_eq_of_lt (by omega), if_neg (by omega), if_pos hge]
      push_cast
      omega
    · have hand0 : b 3 + b 0 * 2 ^ 8 + b 1 * 2 ^ 16 &&& 0x800000 = 0 := by
        by_contra hne
        exact hge ((and_bit23_ne_zero_iff hr24).mp hne)
      have h1 : (if b 3 + b 0 * 2 ^ 8 + b 1 * 2 ^ 16 &&& 0x800000 ≠ 0
          then b 3 + b 0 * 2 ^ 8 + b 1 * 2 ^ 16 ||| 0xFF000000
          else b 3 + b 0 * 2 ^ 8 + b 1 * 2 ^ 16) =
          b 3 + b 0 * 2 ^ 8 + b 1 * 2 ^ 16 := by
        rw [if_neg (by simp only [ne_eq, not_not]; exact hand0)]
      rw [h1, Nat.mod_eq_of_lt (by omega), if_pos (by omega), if_neg hge]
      push_cast
      omega
  refine ⟨?_, ?_, ?_, rfl⟩
  · rw [hval]
    simp only [specMonoValue]
    split_ifs <;> push_cast <;> omega
  · rw [hval]
    split_ifs <;> push_cast <;> omega
  · rw [hval]
    split_ifs <;> push_cast <;> omega

/-- Witness for `getMonoSample_spec` on the frame
`23 01 FF 45 FF FF FF FF` (the layout documented at main.cpp:578). -/
theorem getMonoSample_spec_witness :
    (getMonoSample (fun i => [0x23, 0x01, 0xFF, 0x45, 0xFF, 0xFF, 0xFF, 0xFF].getD i 0) 0).1 =
      specMonoValue (fun i => [0x23, 0x01, 0xFF, 0x45, 0xFF, 0xFF, 0xFF, 0xFF].getD i 0) ∧
    (getMonoSample (fun i => [0x23, 0x01, 0xFF, 0x45, 0xFF, 0xFF, 0xFF, 0xFF].getD i 0) 0).2 =
      (if ([0x23, 0x01, 0xFF, 0x45, 0xFF, 0xFF, 0xFF, 0xFF].getD 2 0 : ℕ) ≠ 0xFF then 0 + 1 else 0) :=
  ⟨(getMonoSample_spec (fun i => [0x23, 0x01, 0xFF, 0x45, 0xFF, 0xFF, 0xFF, 0xFF].getD i 0)
      (by intro i; rcases i with _|_|_|_|_|_|_|_|i <;> simp) 0).1,
   (getMonoSample_spec (fun i => [0x23, 0x01, 0xFF, 0x45, 0xFF, 0xFF, 0xFF, 0xFF].getD i 0)
      (by intro i; rcases i with _|_|_|_|_|_|_|_|i <;> simp) 0).2.2.2⟩

/-- Witness for `tcpSend_partial_bytes_sent_twice` at byte offset 0. -/
theorem tcpSend_partial_bytes_sent_twice_witness :
    (streamOffsets (tcpSendChunks (URTP_DATAGRAM_SIZE : ℤ) 0
        [(0, 100), (10, NSAPI_ERROR_WOULD_BLOCK), (1600, 0)]) ++
      streamOffsets (tcpSendChunks (URTP_DATAGRAM_SIZE : ℤ) 0
        [(0, (URTP_DATAGRAM_SIZE : ℤ))])).count ((0 : ℕ) : ℤ) = 2 :=
  tcpSend_partial_bytes_sent_twice.2.2.2.2.2.2.2.2 0 (by decide)

end Ioc
